import Mathlib

/-!
Shallow embedding of the mpak CLI package-runner core
(`src/commands/packages/run.ts` and the config manager), with theorems
checking the natural-language specification against the code.

Strings are modelled as Lean `String` (a structure over `List Char`);
JavaScript string operations are translated to explicit `List Char`
recursions.  JavaScript objects / `Record<string, string>` values are
modelled as association lists (`List (String × string)`) or as lookup
functions `String → Option String`.
-/

namespace Mpak

/-! ## parsePackageSpec (run.ts lines 55-70)

JavaScript source:
```
const lastAtIndex = spec.lastIndexOf('@');
if (lastAtIndex <= 0) return { name: spec };
const name = spec.substring(0, lastAtIndex);
const version = spec.substring(lastAtIndex + 1);
if (!name.startsWith('@')) return { name: spec };
return { name, version };
```
`String.lastIndexOf` returns -1 when the character is absent; we model it
as `Option Nat`, with `lastAtIndex <= 0` becoming `none` or `some 0`.
-/

/-- Index of the last occurrence of `c` in the list, as JavaScript
`String.prototype.lastIndexOf` (with `-1` modelled as `none`). -/
def lastIndexOfChar (c : Char) : List Char → Option Nat
  | [] => none
  | x :: xs =>
    match lastIndexOfChar c xs with
    | some i => some (i + 1)
    | none => if x = c then some 0 else none

/-- `name.startsWith('@')`: the JS check translated to the head character. -/
def startsWithAtSign (l : List Char) : Bool :=
  match l with
  | '@' :: _ => true
  | _ => false

/-- `parsePackageSpec` from run.ts: split a package spec into name and
optional version at the last `@`, but only when the part before it still
starts with `@`; otherwise the whole input is the name. -/
def parsePackageSpec (spec : String) : String × Option String :=
  match lastIndexOfChar '@' spec.data with
  | none => (spec, none)
  | some i =>
    if i = 0 then (spec, none)
    else
      let name : String := ⟨spec.data.take i⟩
      let version : String := ⟨spec.data.drop (i + 1)⟩
      if startsWithAtSign name.data then (name, some version) else (spec, none)

/-! ## getCacheDir (run.ts lines 76-81)

JavaScript source:
```
const cacheBase = join(homedir(), '.mpak', 'cache');
const safeName = packageName.replace('@', '').replace('/', '-');
return join(cacheBase, safeName);
```
JS `String.prototype.replace` with a string pattern rewrites only the
first occurrence.  The home directory is abstracted as a parameter. -/

/-- Remove the first occurrence of character `c` (JS `replace(c, '')`). -/
def removeFirstChar (c : Char) : List Char → List Char
  | [] => []
  | x :: xs => if x = c then xs else x :: removeFirstChar c xs

/-- Replace the first occurrence of `c` by `r` (JS `replace(c, r)`). -/
def replaceFirstChar (c r : Char) : List Char → List Char
  | [] => []
  | x :: xs => if x = c then r :: xs else x :: replaceFirstChar c r xs

/-- `safeName` computation inside `getCacheDir`. -/
def safeName (packageName : String) : String :=
  ⟨replaceFirstChar '/' '-' (removeFirstChar '@' packageName.data)⟩

/-- `getCacheDir` from run.ts, with `homedir()` passed explicitly and
`join` rendered as POSIX path concatenation. -/
def getCacheDir (home : String) (packageName : String) : String :=
  home ++ "/.mpak/cache/" ++ safeName packageName

/-! ## Cache-validity decision (run.ts lines 314-338)

JavaScript source, first phase (before any network call):
```
let needsPull = true;
let cachedMeta = getCacheMetadata(cacheDir);
if (cachedMeta && !options.update) {
  if (requestedVersion) {
    needsPull = cachedMeta.version !== requestedVersion;
  } else {
    needsPull = false;
  }
}
```
Second phase (only entered when `needsPull`):
```
if (needsPull) {
  const downloadInfo = await client.getDownloadInfo(name, requestedVersion, platform);
  const bundle = downloadInfo.bundle;
  if (cachedMeta && cachedMeta.version === bundle.version && !options.update) {
    needsPull = false;
  }
  if (needsPull) { ...download, extract, write metadata... }
}
```
Cache metadata is represented by its version string (the only field the
decision reads); the registry is an oracle `resolve` from the requested
version to the resolved bundle version. -/

/-- Phase-one pull decision of `handleRun` (run.ts 314-326). -/
def needsPullPhase1 (cachedMeta : Option String) (requestedVersion : Option String)
    (update : Bool) : Bool :=
  match cachedMeta with
  | some cachedVersion =>
    if !update then
      match requestedVersion with
      | some rv => cachedVersion != rv
      | none => false
    else true
  | none => true

/-- Observable outcome of the caching phase of `handleRun`: whether the
registry was contacted (`getDownloadInfo`) and whether the bundle was
actually downloaded and extracted. -/
structure PullOutcome where
  contactedRegistry : Bool
  didDownload : Bool
deriving DecidableEq

/-- The full caching phase of `handleRun` (run.ts 314-367): phase-one
decision, then the registry round-trip and the version-equality download
skip, exactly as in the source. -/
def cachePhase (cachedMeta : Option String) (requestedVersion : Option String)
    (update : Bool) (resolve : Option String → String) : PullOutcome :=
  if needsPullPhase1 cachedMeta requestedVersion update then
    let resolved := resolve requestedVersion
    let skip : Bool :=
      match cachedMeta with
      | some v => v == resolved && !update
      | none => false
    { contactedRegistry := true, didDownload := !skip }
  else
    { contactedRegistry := false, didDownload := false }

/-! ## User-config gathering (run.ts lines 220-287)

JavaScript source of the per-field resolution loop:
```
for (const [key, field] of Object.entries(userConfig)) {
  const storedValue = storedConfig[key];
  const envVarName = `MPAK_CONFIG_${key.toUpperCase()}`;
  const envValue = process.env[envVarName];
  if (storedValue !== undefined) { result[key] = storedValue; }
  else if (envValue !== undefined) { result[key] = envValue; }
  else if (field.default !== undefined) { result[key] = String(field.default); }
  else if (field.required) { missingRequired.push({ key, field }); }
}
```
`UserConfigField.default` is `string | number | boolean`; the loop only
ever uses `String(field.default)`, so the field is modelled directly as
the coerced `Option String`.  `field.required` is an optional boolean and
`undefined` is falsy, so it is modelled as `Bool`. -/

/-- Manifest `user_config` field, reduced to the members the gathering
loop reads (`default` already coerced by `String(...)`). -/
structure UserConfigField where
  required : Bool
  default? : Option String
deriving DecidableEq

/-- Derived ambient environment variable name for a config key:
``MPAK_CONFIG_${key.toUpperCase()}``.  `toUpperCase` is modelled as a
per-character uppercase map over the string's characters. -/
def derivedEnvVar (key : String) : String :=
  "MPAK_CONFIG_" ++ String.mk (key.data.map Char.toUpper)

/-- The if/else-if chain resolving one field from stored config value,
derived ambient value, and default; `none` means the field stays
unresolved. -/
def resolveField (storedValue envValue : Option String) (field : UserConfigField) :
    Option String :=
  match storedValue with
  | some v => some v
  | none =>
    match envValue with
    | some v => some v
    | none => field.default?

/-- The resolution loop of `gatherUserConfigValues`: returns the resolved
`result` map and the `missingRequired` key list, both in declaration
order.  `stored` is the per-package stored config and `ambient` the
process environment, as lookup functions. -/
def gatherPure (stored ambient : String → Option String) :
    List (String × UserConfigField) → List (String × String) × List String
  | [] => ([], [])
  | (key, field) :: rest =>
    let tail := gatherPure stored ambient rest
    match resolveField (stored key) (ambient (derivedEnvVar key)) field with
    | some v => ((key, v) :: tail.1, tail.2)
    | none =>
      if field.required then (tail.1, key :: tail.2) else (tail.1, tail.2)

/-- The three stderr lines written by `gatherUserConfigValues` in a
non-interactive context when required values are missing
(run.ts 249-252), without the trailing newline each `write` appends. -/
def missingConfigMessages (packageName : String) (missing : List String) : List String :=
  [ "=> Error: Missing required config: " ++ String.intercalate ", " missing,
    "=> Run " ++ (Char.ofNat 39).toString ++ "mpak config set " ++ packageName
      ++ " <key>=<value>" ++ (Char.ofNat 39).toString ++ " to set values",
    "=> Or set environment variables: "
      ++ String.intercalate ", " (missing.map derivedEnvVar) ]

/-! ## Placeholder substitution (run.ts lines 148-170)

JavaScript source:
```
return value.replace(/\$\x7buser_config\.([^\x7d]+)\x7d/g, (match, key) => {
  return userConfigValues[key] ?? match;
});
```
The regex scans left to right; at a match position the literal marker
`"$\x7buser_config."` is followed by one or more non-`\x7d` characters up
to the first closing brace.  The replacement (the looked-up value, or the
whole match verbatim when the key is absent) is not rescanned; scanning
resumes after the closing brace.  `substUC` is that scanner on
`List Char`. -/

/-- The closing brace character. -/
def rbrace : Char := Char.ofNat 125

/-- The literal marker `"$\x7buser_config."` that opens a placeholder. -/
def ucMarker : List Char := "$\x7buser_config.".data

/-- The regex fragment `([^\x7d]+)\x7d`: the key is the nonempty run of
characters before the first closing brace, `none` when the input starts
with a brace or contains none. -/
def takeKey : List Char → Option (List Char)
  | [] => none
  | c :: cs =>
    if c = rbrace then none
    else
      match cs with
      | [] => none
      | c2 :: cs2 =>
        if c2 = rbrace then some [c]
        else (takeKey (c2 :: cs2)).map (c :: ·)

/-- The global-replace scanner of `substituteUserConfig`, over the
character list.  `m` is the resolved user-config value map. -/
def substUC (m : List (String × String)) : List Char → List Char
  | [] => []
  | c :: cs =>
    if ucMarker.isPrefixOf (c :: cs) then
      match takeKey (cs.drop (ucMarker.length - 1)) with
      | some k =>
        (match m.lookup (String.mk k) with
         | some v => v.data
         | none => ucMarker ++ k ++ [rbrace])
          ++ substUC m ((cs.drop (ucMarker.length - 1)).drop (k.length + 1))
      | none => c :: substUC m cs
    else c :: substUC m cs
termination_by l => l.length
decreasing_by
  · simp only [List.length_drop, List.length_cons]
    omega
  · simp only [List.length_cons]
    omega
  · simp only [List.length_cons]
    omega

/-- Whether the scanner would find at least one placeholder occurrence. -/
def hasPlaceholder : List Char → Bool
  | [] => false
  | c :: cs =>
    if ucMarker.isPrefixOf (c :: cs) && (takeKey (cs.drop (ucMarker.length - 1))).isSome
    then true
    else hasPlaceholder cs

/-- `substituteUserConfig` from run.ts: substitute user-config
placeholders in one string. -/
def substituteUserConfig (value : String) (userConfigValues : List (String × String)) :
    String :=
  String.mk (substUC userConfigValues value.data)

/-- `substituteEnvVars` from run.ts: apply `substituteUserConfig` to every
value of the (possibly absent) manifest environment map, never to keys. -/
def substituteEnvVars (env : Option (List (String × String)))
    (userConfigValues : List (String × String)) : List (String × String) :=
  match env with
  | none => []
  | some e => e.map fun p => (p.1, substituteUserConfig p.2 userConfigValues)

/-- The placeholder text for key `k`, as a string:
``$\x7buser_config.k\x7d``. -/
def ucPlaceholder (k : String) : String :=
  String.mk (ucMarker ++ k.data ++ [rbrace])

/-! ## Final environment merge (run.ts line 385)

JavaScript source:
```
let env: Record<string, string | undefined> = { ...process.env, ...substitutedEnv };
```
Object-spread semantics: later spreads overwrite earlier ones, so for a
key present in both, the value from `substitutedEnv` (the substituted
manifest environment) is kept and the ambient `process.env` value is
discarded. -/

/-- The environment handed to `spawn`: `process.env` spread first, the
substituted manifest env spread second (second wins). -/
def finalEnv (processEnv : String → Option String)
    (substitutedEnv : List (String × String)) : String → Option String :=
  fun k =>
    match substitutedEnv.lookup k with
    | some v => some v
    | none => processEnv k

/-! ## Non-interactive config phase of handleRun (run.ts 247-254, 373-385)

In a non-interactive context (`process.stdin.isTTY !== true`),
`gatherUserConfigValues` writes the three error lines and calls
`process.exit(1)` as soon as `missingRequired` is nonempty; otherwise
`handleRun` substitutes the manifest env and spawns the child with the
merged environment.  The outcome is modelled as a sum. -/

/-- Result of the configuration phase: either the child is spawned with a
final environment, or the process exits with a code and stderr lines. -/
inductive RunOutcome where
  | spawned (env : String → Option String) : RunOutcome
  | exited (code : Nat) (messages : List String) : RunOutcome

/-- The non-interactive configuration-and-spawn phase of `handleRun`:
gather user-config values; if required values are missing, report and exit
with status 1 before any spawn; otherwise spawn with the ambient
environment merged with the substituted manifest environment. -/
def runConfigPhase (packageName : String) (stored ambient processEnv : String → Option String)
    (userConfig : List (String × UserConfigField))
    (mcpEnv : Option (List (String × String))) : RunOutcome :=
  let gathered := gatherPure stored ambient userConfig
  if gathered.2.isEmpty then
    .spawned (finalEnv processEnv (substituteEnvVars mcpEnv gathered.1))
  else
    .exited 1 (missingConfigMessages packageName gathered.2)

/-! ## Config store validation (config-manager.ts, `validateConfig`)

The configuration manager (`src/utils/config-manager.ts`, the revision
with per-package config: `src/unnamed/part_007`) parses
`~/.mpak/config.json` with `JSON.parse` and then runs `validateConfig`.
JSON values are modelled by `JsonValue`.  JavaScript dynamic checks are
translated with their actual semantics: `typeof x === 'object'` holds for
objects, arrays and `null`; the code pairs it with an explicit
`x === null` test, so the combined check accepts objects *and arrays*.
Property access `obj.version` on an array yields `undefined` for the
non-index keys this code reads, and `Object.entries` / `Object.keys` on
an array enumerate its index/element pairs. -/

/-- Parsed JSON value. -/
inductive JsonValue where
  | str (s : String)
  | num (n : Int)
  | jbool (b : Bool)
  | null
  | arr (elems : List JsonValue)
  | obj (fields : List (String × JsonValue))

/-- `typeof x === 'string'`. -/
def isStr : JsonValue → Bool
  | .str _ => true
  | _ => false

/-- `typeof x === 'object' && x !== null`: true for objects and arrays. -/
def isObjLike : JsonValue → Bool
  | .obj _ => true
  | .arr _ => true
  | _ => false

/-- Property access `x[k]` for the non-numeric key names this validator
reads: field lookup on objects, `undefined` otherwise. -/
def jsGetField : JsonValue → String → Option JsonValue
  | .obj fields, k => fields.lookup k
  | _, _ => none

/-- `Object.entries(x)`: the fields of an object, or the index/element
pairs of an array. -/
def jsEntries : JsonValue → List (String × JsonValue)
  | .obj fields => fields
  | .arr elems => elems.enum.map fun p => (toString p.1, p.2)
  | _ => []

/-- `Object.keys(x)`. -/
def jsKeys (v : JsonValue) : List String :=
  (jsEntries v).map Prod.fst

/-- `typeof obj.k === 'string'` for a possibly-absent property. -/
def isSomeStr : Option JsonValue → Bool
  | some (.str _) => true
  | _ => false

/-- The known top-level fields of the config schema. -/
def knownFields : List String := ["version", "lastUpdated", "registryUrl", "packages"]

/-- Inner loop of `validateConfig`: every value of one per-package config
must be a string (first offender raises). -/
def validateStringValues (pkgName : String) :
    List (String × JsonValue) → Except String Unit
  | [] => .ok ()
  | (key, value) :: rest =>
    if isStr value then validateStringValues pkgName rest
    else .error ("Config packages." ++ pkgName ++ "." ++ key ++ " must be a string")

/-- Outer loop of `validateConfig` over `Object.entries(obj.packages)`:
each per-package config must be a non-null object whose values are all
strings. -/
def validatePackagesEntries : List (String × JsonValue) → Except String Unit
  | [] => .ok ()
  | (pkgName, pkgConfig) :: rest =>
    if isObjLike pkgConfig then
      match validateStringValues pkgName (jsEntries pkgConfig) with
      | .ok () => validatePackagesEntries rest
      | .error e => .error e
    else .error ("Config packages." ++ pkgName ++ " must be an object")

/-- The unknown-top-level-field scan of `validateConfig` (first offender). -/
def findUnknownField : List String → Option String
  | [] => none
  | k :: rest => if knownFields.contains k then findUnknownField rest else some k

/-- Tail of `validateConfig`: reject the first unknown top-level field. -/
def validateConfigKnownPart (data : JsonValue) : Except String Unit :=
  match findUnknownField (jsKeys data) with
  | some k => .error ("Config contains unknown field: " ++ k)
  | none => .ok ()

/-- Continuation of `validateConfig`: the `packages` check followed by the
unknown-field scan. -/
def validateConfigPackagesPart (data : JsonValue) : Except String Unit :=
  match jsGetField data "packages" with
  | some p =>
    if isObjLike p then
      match validatePackagesEntries (jsEntries p) with
      | .ok () => validateConfigKnownPart data
      | .error e => .error e
    else .error "Config field packages must be an object"
  | none => validateConfigKnownPart data

/-- `validateConfig` from config-manager.ts: the sequential schema checks,
each raising `ConfigCorruptedError` (modelled as `Except.error` with the
message) at the first violation. -/
def validateConfig (data : JsonValue) : Except String Unit :=
  if !isObjLike data then .error "Config file must be a JSON object"
  else if !isSomeStr (jsGetField data "version") then
    .error "Config missing required field: version (string)"
  else if !isSomeStr (jsGetField data "lastUpdated") then
    .error "Config missing required field: lastUpdated (string)"
  else
    match jsGetField data "registryUrl" with
    | some v =>
      if !isStr v then .error "Config field registryUrl must be a string"
      else validateConfigPackagesPart data
    | none => validateConfigPackagesPart data

/-- `loadConfig` from config-manager.ts, restricted to an existing file:
`JSON.parse` failure (`parsed = none`) raises `ConfigCorruptedError`, else
the parsed value is validated.  On success the parsed value is the loaded
config. -/
def loadConfigParsed (parsed : Option JsonValue) : Except String JsonValue :=
  match parsed with
  | none => .error "Config file contains invalid JSON"
  | some d =>
    match validateConfig d with
    | .ok () => .ok d
    | .error e => .error e

/-- One per-package entry satisfies the element checks of the validator
(JS object-or-array whose entry values are strings). -/
def pkgEntryOk (p : String × JsonValue) : Bool :=
  isObjLike p.2 && (jsEntries p.2).all fun q => isStr q.2

/-- The exact set of values `validateConfig` accepts, written as one
conjunction: a JS object or array, `version`/`lastUpdated` string
properties, `registryUrl` absent or string, `packages` absent or
object-or-array of per-package entries passing `pkgEntryOk`, and no
unknown top-level keys. -/
def looseConform (d : JsonValue) : Bool :=
  isObjLike d
  && isSomeStr (jsGetField d "version")
  && isSomeStr (jsGetField d "lastUpdated")
  && (match jsGetField d "registryUrl" with
      | none => true
      | some v => isStr v)
  && (match jsGetField d "packages" with
      | none => true
      | some p => isObjLike p && (jsEntries p).all pkgEntryOk)
  && (jsKeys d).all fun k => knownFields.contains k

/-- Modelled from the spec: the conformance predicate of the claim, where
"object" means a JSON object (not an array): a JSON object whose
top-level fields are exactly among the known ones, `version` and
`lastUpdated` strings, `registryUrl` absent or a string, and `packages`
absent or a map of string-to-string maps. -/
def strictConform (d : JsonValue) : Bool :=
  match d with
  | .obj fields =>
    isSomeStr (fields.lookup "version")
    && isSomeStr (fields.lookup "lastUpdated")
    && (match fields.lookup "registryUrl" with
        | none => true
        | some v => isStr v)
    && (match fields.lookup "packages" with
        | none => true
        | some (.obj pkgs) =>
          pkgs.all fun p =>
            match p.2 with
            | .obj kvs => kvs.all fun q => isStr q.2
            | _ => false
        | some _ => false)
    && (fields.map Prod.fst).all fun k => knownFields.contains k
  | _ => false

/-- A config file content that is *not* a JSON object with the known
fields of the correct types (`packages` is an array, not a map), yet is
accepted by `validateConfig` because `typeof [] === 'object'` in JS. -/
def badPackagesConfig : JsonValue :=
  .obj [("version", .str "1.0.0"), ("lastUpdated", .str "2024-01-01T00:00:00Z"),
        ("packages", .arr [])]

/-! # Theorems -/

/-- C1: the claim says the ambient process environment is overlaid on top
of the substituted manifest environment, so the ambient value wins for a
shared key.  The code spreads `substitutedEnv` *after* `process.env`, so
at the failing input (ambient `API_KEY=ambient-value`, substituted
manifest env `API_KEY=bundle-value`) the child receives the manifest
value, not the ambient one — contradicting the claim and the repository's
own test comment ("process.env will override this at merge time"). -/
theorem c1_final_env_manifest_value_wins :
    finalEnv (fun k => if k = "API_KEY" then some "ambient-value" else none)
        [("API_KEY", "bundle-value")] "API_KEY" = some "bundle-value"
      ∧ ("bundle-value" : String) ≠ "ambient-value" := by
  exact ⟨by decide, by decide⟩

/-- C4 counterexample: with the force-refresh flag set, cache metadata
present at version 1.0.0 and the registry resolving to the same 1.0.0,
the download is *not* skipped (the skip check requires
`!options.update`), refuting the claim as stated. -/
theorem c4_counterexample_forced_pull_downloads :
    ¬ ((cachePhase (some "1.0.0") none true (fun _ => "1.0.0")).didDownload = false) := by
  decide

/-- C4 amended: when the force-refresh flag is set the bundle is always
downloaded, even if the registry resolves to the cached version; the
download skip applies only without the flag, when a pull was required for
a version mismatch but the registry resolves the request to the version
already cached (the registry is still contacted, the cache is reused). -/
theorem c4_amended_skip_only_without_force :
    (∀ (cached : Option String) (req : Option String) (resolve : Option String → String),
        (cachePhase cached req true resolve).didDownload = true)
      ∧ (∀ (v r : String) (resolve : Option String → String),
          v ≠ r → resolve (some r) = v →
          (cachePhase (some v) (some r) false resolve).didDownload = false
            ∧ (cachePhase (some v) (some r) false resolve).contactedRegistry = true) := by
  constructor
  · intro cached req resolve
    cases cached <;> simp [cachePhase, needsPullPhase1]
  · intro v r resolve hne hres
    simp [cachePhase, needsPullPhase1, bne_iff_ne, hne, hres]

/-- C4 witness: concrete instance of the amended skip case. -/
theorem c4_amended_witness :
    (cachePhase (some "1.0.0") (some "2.0.0") false (fun _ => "1.0.0")).didDownload = false
      ∧ (cachePhase (some "1.0.0") (some "2.0.0") false
          (fun _ => "1.0.0")).contactedRegistry = true :=
  c4_amended_skip_only_without_force.2 "1.0.0" "2.0.0" (fun _ => "1.0.0") (by decide) rfl

/-- C5: without the force flag, the cache-validity decision is: no
metadata → pull; a requested version → pull exactly when the cached
version differs; no requested version → no pull and the registry is not
contacted at all. -/
theorem c5_cache_decision_no_force :
    (∀ req : Option String, needsPullPhase1 none req false = true)
      ∧ (∀ v r : String, needsPullPhase1 (some v) (some r) false = (v != r))
      ∧ (∀ v : String, needsPullPhase1 (some v) none false = false)
      ∧ (∀ (v : String) (resolve : Option String → String),
          cachePhase (some v) none false resolve
            = { contactedRegistry := false, didDownload := false }) := by
  refine ⟨fun req => rfl, fun v r => rfl, fun v => rfl, fun v resolve => ?_⟩
  simp [cachePhase, needsPullPhase1]

/-- `lastIndexOfChar` finds nothing in a list not containing the character. -/
theorem lastIndexOfChar_eq_none {c : Char} {l : List Char} (h : c ∉ l) :
    lastIndexOfChar c l = none := by
  induction l with
  | nil => rfl
  | cons x xs ih =>
    have hx : x ≠ c := fun he => h (he ▸ List.mem_cons_self x xs)
    have hxs : c ∉ xs := fun hm => h (List.mem_cons_of_mem x hm)
    simp [lastIndexOfChar, ih hxs, hx]

/-- The last `@` of `a ++ '@' :: b` sits at index `a.length` when `b`
contains no `@`. -/
theorem lastIndexOfChar_append {c : Char} {a b : List Char} (h : c ∉ b) :
    lastIndexOfChar c (a ++ c :: b) = some a.length := by
  induction a with
  | nil => simp [lastIndexOfChar, lastIndexOfChar_eq_none h]
  | cons x xs ih => simp [lastIndexOfChar, ih]

/-- C2 amended: for `name@ver` where `name` starts with `@` and the
version contains no `@` (it may contain `+` and `-`), `parsePackageSpec`
splits into exactly that name and version; and whenever no version is
produced, the whole input is returned as the name (the function is total
by construction).  When the version itself contains `@`, the split
happens at the *last* `@`, inside the version. -/
theorem c2_parse_package_spec :
    (∀ name ver : String, startsWithAtSign name.data = true → '@' ∉ ver.data →
        parsePackageSpec (name ++ "@" ++ ver) = (name, some ver))
      ∧ (∀ s : String, (parsePackageSpec s).2 = none → (parsePackageSpec s).1 = s) := by
  constructor
  · intro name ver h1 h2
    have hdata : (name ++ "@" ++ ver).data = name.data ++ '@' :: ver.data := by
      simp [String.data_append]
    have hlen : name.data.length ≠ 0 := by
      cases hnd : name.data with
      | nil => rw [hnd] at h1; simp [startsWithAtSign] at h1
      | cons c t => simp [hnd]
    have hdrop : (name.data ++ '@' :: ver.data).drop (name.data.length + 1) = ver.data := by
      rw [List.append_cons]
      exact List.drop_left' (by simp)
    unfold parsePackageSpec
    rw [hdata, lastIndexOfChar_append h2]
    simp only [hlen, if_false, List.take_left, List.drop_left', hdrop]
    have : startsWithAtSign (String.mk name.data).data = true := h1
    simp only [this, if_true]
  · intro s h
    unfold parsePackageSpec at h ⊢
    rcases hidx : lastIndexOfChar '@' s.data with _ | i
    · rfl
    · rw [hidx] at h
      dsimp only at h ⊢
      by_cases hi : i = 0
      · simp [hi]
      · rw [if_neg hi] at h ⊢
        cases hsw : startsWithAtSign (List.take i s.data) with
        | true => simp [hsw] at h
        | false => simp [hsw]

/-- C2 counterexample: for a version string itself containing `@`, the
split happens at the last `@`, so `"@s/n@1.0.0@beta"` does *not* parse to
name `"@s/n"` with version `"1.0.0@beta"` (it parses to
`("@s/n@1.0.0", some "beta")`). -/
theorem c2_counterexample_version_with_at :
    parsePackageSpec "@s/n@1.0.0@beta" ≠ ("@s/n", some "1.0.0@beta")
      ∧ parsePackageSpec "@s/n@1.0.0@beta" = ("@s/n@1.0.0", some "beta") := by
  exact ⟨by decide, by decide⟩

/-- C2 witness: a scoped name with a prerelease/build-metadata version
(containing `-` and `+`) splits as the claim describes. -/
theorem c2_witness :
    parsePackageSpec ("@scope/name" ++ "@" ++ "1.0.0-beta.1+build")
      = ("@scope/name", some "1.0.0-beta.1+build") :=
  c2_parse_package_spec.1 "@scope/name" "1.0.0-beta.1+build" (by decide) (by decide)

/-- Replacing the first `c` in `a ++ c :: b` when `a` is `c`-free rewrites
exactly the separator. -/
theorem replaceFirstChar_append {c r : Char} {a b : List Char} (h : c ∉ a) :
    replaceFirstChar c r (a ++ c :: b) = a ++ r :: b := by
  induction a with
  | nil => simp [replaceFirstChar]
  | cons x xs ih =>
    have hx : x ≠ c := fun he => h (he ▸ List.mem_cons_self x xs)
    have hxs : c ∉ xs := fun hm => h (List.mem_cons_of_mem x hm)
    simp [replaceFirstChar, hx, ih hxs]

/-- Lists split uniquely at a separator character absent from the left
parts. -/
theorem append_sep_inj {c : Char} {a1 b1 a2 b2 : List Char}
    (h1 : c ∉ a1) (h2 : c ∉ a2) (h : a1 ++ c :: b1 = a2 ++ c :: b2) :
    a1 = a2 ∧ b1 = b2 := by
  induction a1 generalizing a2 with
  | nil =>
    cases a2 with
    | nil => simpa using h
    | cons y a2' =>
      simp only [List.nil_append, List.cons_append, List.cons.injEq] at h
      exact absurd (h.1 ▸ List.mem_cons_self y a2') h2
  | cons x a1' ih =>
    cases a2 with
    | nil =>
      simp only [List.nil_append, List.cons_append, List.cons.injEq] at h
      exact absurd (h.1 ▸ List.mem_cons_self x a1') h1
    | cons y a2' =>
      simp only [List.cons_append, List.cons.injEq] at h
      have hx : c ∉ a1' := fun hm => h1 (List.mem_cons_of_mem x hm)
      have hy : c ∉ a2' := fun hm => h2 (List.mem_cons_of_mem y hm)
      obtain ⟨he, ht⟩ := h
      obtain ⟨ha, hb⟩ := ih hx hy ht
      exact ⟨by rw [he, ha], hb⟩

/-- `safeName` on a scoped name `@scope/name` with a slash-free scope
yields `scope-name` (later slashes in the name part are untouched). -/
theorem safeName_scoped {s n : String} (hs : '/' ∉ s.data) :
    (safeName ("@" ++ s ++ "/" ++ n)).data = s.data ++ '-' :: n.data := by
  have hdata : ("@" ++ s ++ "/" ++ n).data = '@' :: (s.data ++ '/' :: n.data) := by
    simp [String.data_append]
  show replaceFirstChar '/' '-' (removeFirstChar '@' ("@" ++ s ++ "/" ++ n).data)
      = s.data ++ '-' :: n.data
  rw [hdata]
  simp only [removeFirstChar, if_pos rfl]
  exact replaceFirstChar_append hs

/-- C3 amended: `getCacheDir` is injective on scoped names whose scope
part contains neither `/` nor `-`; it is not injective on all scoped
names (see the counterexample, where the scope contains `-`). -/
theorem c3_cache_dir_injective :
    ∀ home s1 n1 s2 n2 : String,
      '/' ∉ s1.data → '-' ∉ s1.data → '/' ∉ s2.data → '-' ∉ s2.data →
      getCacheDir home ("@" ++ s1 ++ "/" ++ n1) = getCacheDir home ("@" ++ s2 ++ "/" ++ n2) →
      s1 = s2 ∧ n1 = n2 := by
  intro home s1 n1 s2 n2 hs1 hd1 hs2 hd2 h
  have hdata : (home ++ "/.mpak/cache/").data ++ (safeName ("@" ++ s1 ++ "/" ++ n1)).data
      = (home ++ "/.mpak/cache/").data ++ (safeName ("@" ++ s2 ++ "/" ++ n2)).data := by
    have := congrArg String.data h
    simpa [getCacheDir, String.data_append] using this
  have hsafe := List.append_cancel_left hdata
  rw [safeName_scoped hs1, safeName_scoped hs2] at hsafe
  obtain ⟨ha, hb⟩ := append_sep_inj hd1 hd2 hsafe
  exact ⟨String.ext ha, String.ext hb⟩

/-- C3 counterexample: the distinct scoped names `@a-b/c` and `@a/b-c`
collapse to the same cache directory, so `getCacheDir` is not injective
over scoped-name inputs. -/
theorem c3_counterexample_collision :
    getCacheDir "/h" "@a-b/c" = getCacheDir "/h" "@a/b-c"
      ∧ ("@a-b/c" : String) ≠ "@a/b-c" := by
  exact ⟨rfl, by decide⟩

/-- C3 witness: the claim's concrete pair `@nimblebraininc/echo` and
`@nimblebraininc/Echo2` map to distinct cache directories. -/
theorem c3_witness_echo :
    getCacheDir "/h" ("@" ++ "nimblebraininc" ++ "/" ++ "echo")
      ≠ getCacheDir "/h" ("@" ++ "nimblebraininc" ++ "/" ++ "Echo2") := fun h =>
  absurd
    (c3_cache_dir_injective "/h" "nimblebraininc" "echo" "nimblebraininc" "Echo2"
      (by decide) (by decide) (by decide) (by decide) h).2
    (by decide)

/-- Keys absent from the declared fields never appear in the gathered
result map. -/
theorem gatherPure_lookup_not_mem {stored ambient : String → Option String}
    {fields : List (String × UserConfigField)} {k : String}
    (h : k ∉ fields.map Prod.fst) :
    ((gatherPure stored ambient fields).1.lookup k) = none := by
  induction fields with
  | nil => rfl
  | cons p rest ih =>
    obtain ⟨k', f'⟩ := p
    have hk : k ≠ k' := by
      intro he; exact h (by simp [he])
    have hrest : k ∉ rest.map Prod.fst := fun hm => h (by simp [hm])
    have hbeq : (k == k') = false := beq_eq_false_iff_ne.mpr hk
    simp only [gatherPure]
    cases resolveField (stored k') (ambient (derivedEnvVar k')) f' with
    | some v =>
      rw [List.lookup_cons, hbeq]
      exact ih hrest
    | none =>
      cases f'.required <;> simpa using ih hrest

/-- Keys absent from the declared fields never appear in the missing
list. -/
theorem gatherPure_missing_not_mem {stored ambient : String → Option String}
    {fields : List (String × UserConfigField)} {k : String}
    (h : k ∉ fields.map Prod.fst) :
    k ∉ (gatherPure stored ambient fields).2 := by
  induction fields with
  | nil => simp [gatherPure]
  | cons p rest ih =>
    obtain ⟨k', f'⟩ := p
    have hk : k ≠ k' := by
      intro he; exact h (by simp [he])
    have hrest : k ∉ rest.map Prod.fst := fun hm => h (by simp [hm])
    simp only [gatherPure]
    cases resolveField (stored k') (ambient (derivedEnvVar k')) f' with
    | some v => simpa using ih hrest
    | none =>
      cases f'.required <;> simp [hk, ih hrest]

/-- For a declared field (with distinct keys), the gathered value for its
key is exactly what the stored/env/default chain resolves. -/
theorem gatherPure_lookup {stored ambient : String → Option String}
    {fields : List (String × UserConfigField)} {k : String} {f : UserConfigField}
    (hnd : (fields.map Prod.fst).Nodup) (hmem : (k, f) ∈ fields) :
    (gatherPure stored ambient fields).1.lookup k
      = resolveField (stored k) (ambient (derivedEnvVar k)) f := by
  induction fields with
  | nil => cases hmem
  | cons p rest ih =>
    obtain ⟨k', f'⟩ := p
    simp only [List.map_cons, List.nodup_cons] at hnd
    rcases List.mem_cons.mp hmem with heq | hmem'
    · obtain ⟨hk, hf⟩ := Prod.mk.injEq .. ▸ heq
      subst hk; subst hf
      simp only [gatherPure]
      cases hres : resolveField (stored k) (ambient (derivedEnvVar k)) f with
      | some v => simp [List.lookup_cons]
      | none =>
        cases f.required <;>
          simpa using @gatherPure_lookup_not_mem stored ambient rest k hnd.1
    · have hk : k ≠ k' := by
        intro he
        exact hnd.1 (he ▸ List.mem_map_of_mem Prod.fst hmem')
      have hbeq : (k == k') = false := beq_eq_false_iff_ne.mpr hk
      simp only [gatherPure]
      cases resolveField (stored k') (ambient (derivedEnvVar k')) f' with
      | some v =>
        rw [List.lookup_cons, hbeq]
        exact ih hnd.2 hmem'
      | none => cases f'.required <;> simpa using ih hnd.2 hmem'

/-- A declared field's key lands in the missing list exactly when the
chain leaves it unresolved and it is required. -/
theorem gatherPure_missing_iff {stored ambient : String → Option String}
    {fields : List (String × UserConfigField)} {k : String} {f : UserConfigField}
    (hnd : (fields.map Prod.fst).Nodup) (hmem : (k, f) ∈ fields) :
    (k ∈ (gatherPure stored ambient fields).2
      ↔ resolveField (stored k) (ambient (derivedEnvVar k)) f = none
          ∧ f.required = true) := by
  induction fields with
  | nil => cases hmem
  | cons p rest ih =>
    obtain ⟨k', f'⟩ := p
    simp only [List.map_cons, List.nodup_cons] at hnd
    rcases List.mem_cons.mp hmem with heq | hmem'
    · obtain ⟨hk, hf⟩ := Prod.mk.injEq .. ▸ heq
      subst hk; subst hf
      simp only [gatherPure]
      cases hres : resolveField (stored k) (ambient (derivedEnvVar k)) f with
      | some v =>
        simp only [hres]
        simpa using fun hm =>
          absurd hm (@gatherPure_missing_not_mem stored ambient rest k hnd.1)
      | none =>
        cases hreq : f.required with
        | true => simp
        | false =>
          simpa using @gatherPure_missing_not_mem stored ambient rest k hnd.1
    · have hk : k ≠ k' := by
        intro he
        exact hnd.1 (he ▸ List.mem_map_of_mem Prod.fst hmem')
      simp only [gatherPure]
      cases resolveField (stored k') (ambient (derivedEnvVar k')) f' with
      | some v => simpa using ih hnd.2 hmem'
      | none => cases f'.required <;> simp [hk, ih hnd.2 hmem']

/-- Any required field left unresolved by the chain makes the missing
list nonempty (no distinctness needed). -/
theorem gatherPure_missing_nonempty {stored ambient : String → Option String}
    {fields : List (String × UserConfigField)} {k : String} {f : UserConfigField}
    (hmem : (k, f) ∈ fields) (hreq : f.required = true)
    (h1 : stored k = none) (h2 : ambient (derivedEnvVar k) = none)
    (h3 : f.default? = none) :
    (gatherPure stored ambient fields).2 ≠ [] := by
  induction fields with
  | nil => cases hmem
  | cons p rest ih =>
    obtain ⟨k', f'⟩ := p
    rcases List.mem_cons.mp hmem with heq | hmem'
    · obtain ⟨hk, hf⟩ := Prod.mk.injEq .. ▸ heq
      subst hk; subst hf
      simp only [gatherPure, resolveField, h1, h2, h3, hreq]
      simp
    · simp only [gatherPure]
      cases resolveField (stored k') (ambient (derivedEnvVar k')) f' with
      | some v => simpa using ih hmem'
      | none =>
        cases f'.required with
        | true => simp
        | false => simpa using ih hmem'

/-- C6: for a declared field whose stored value, derived ambient value and
default are all present, user-config resolution takes the stored value;
with no stored value it takes the ambient value; with neither it takes
the default — the strict short-circuit priority of
`gatherUserConfigValues`. -/
theorem c6_config_priority :
    ∀ (stored ambient : String → Option String)
      (fields : List (String × UserConfigField)) (k : String) (f : UserConfigField)
      (sv ev : String),
      (fields.map Prod.fst).Nodup → (k, f) ∈ fields →
      ((stored k = some sv → ambient (derivedEnvVar k) = some ev → f.default?.isSome →
          (gatherPure stored ambient fields).1.lookup k = some sv)
        ∧ (stored k = none → ambient (derivedEnvVar k) = some ev →
            (gatherPure stored ambient fields).1.lookup k = some ev)
        ∧ (stored k = none → ambient (derivedEnvVar k) = none →
            (gatherPure stored ambient fields).1.lookup k = f.default?)) := by
  intro stored ambient fields k f sv ev hnd hmem
  refine ⟨fun h1 h2 _ => ?_, fun h1 h2 => ?_, fun h1 h2 => ?_⟩ <;>
    rw [gatherPure_lookup hnd hmem] <;> simp [resolveField, h1, h2]

/-- C6 witness: with all three sources set to different values
(stored `stored-v`, ambient `env-v`, default `default-v`), the stored
value wins. -/
theorem c6_witness :
    (gatherPure (fun k => if k = "key" then some "stored-v" else none)
        (fun v => if v = "MPAK_CONFIG_KEY" then some "env-v" else none)
        [("key", { required := true, default? := some "default-v" })]).1.lookup "key"
      = some "stored-v" :=
  (c6_config_priority (fun k => if k = "key" then some "stored-v" else none)
      (fun v => if v = "MPAK_CONFIG_KEY" then some "env-v" else none)
      [("key", { required := true, default? := some "default-v" })]
      "key" { required := true, default? := some "default-v" } "stored-v" "env-v"
      (by decide) (by simp)).1 rfl (by decide) (by decide)

/-- The placeholder marker starts with a dollar sign. -/
theorem ucMarker_eq : ucMarker = '$' :: "\x7buser_config.".data := rfl

/-- A list starting with a non-dollar character cannot start with the
placeholder marker. -/
theorem ucMarker_head_ne {x : Char} {l : List Char} (hx : x ≠ '$') :
    ucMarker.isPrefixOf (x :: l) = false := by
  have h : ('$' == x) = false := beq_eq_false_iff_ne.mpr fun he => hx he.symm
  show List.isPrefixOf ('$' :: "\x7buser_config.".data) (x :: l) = false
  simp [List.isPrefixOf, h]

/-- `takeKey` recognises a brace-free nonempty key followed by the
closing brace. -/
theorem takeKey_append {k rest : List Char} (hk : rbrace ∉ k) (hne : k ≠ []) :
    takeKey (k ++ rbrace :: rest) = some k := by
  induction k with
  | nil => exact absurd rfl hne
  | cons c k' ih =>
    have hc : c ≠ rbrace := fun he => hk (he ▸ List.mem_cons_self c k')
    have hk' : rbrace ∉ k' := fun hm => hk (List.mem_cons_of_mem c hm)
    cases k' with
    | nil => simp [takeKey, hc]
    | cons c2 k'' =>
      have hc2 : c2 ≠ rbrace := fun he => hk' (he ▸ List.mem_cons_self c2 k'')
      simp only [List.cons_append]
      rw [takeKey]
      simp only [hc, if_false, hc2]
      rw [← List.cons_append, ih hk' (by simp)]
      simp

/-- Scanner step when the head cannot open a placeholder. -/
theorem substUC_cons_of_not_marker {m : List (String × String)} {c : Char}
    {cs : List Char} (h : ucMarker.isPrefixOf (c :: cs) = false) :
    substUC m (c :: cs) = c :: substUC m cs := by
  rw [substUC]
  simp [h]

/-- Scanner step when no complete key-plus-brace follows the position. -/
theorem substUC_cons_of_no_key {m : List (String × String)} {c : Char}
    {cs : List Char} (h : takeKey (cs.drop (ucMarker.length - 1)) = none) :
    substUC m (c :: cs) = c :: substUC m cs := by
  rw [substUC]
  by_cases hp : ucMarker.isPrefixOf (c :: cs) = true
  · simp [hp, h]
  · simp [hp]

/-- Scanner step at a full placeholder occurrence: replace by the looked
up value, or keep the occurrence verbatim, and resume after the closing
brace. -/
theorem substUC_marker {m : List (String × String)} (k : String) (rest : List Char)
    (hk1 : rbrace ∉ k.data) (hk2 : k.data ≠ []) :
    substUC m (ucMarker ++ k.data ++ rbrace :: rest)
      = (match m.lookup k with
          | some v => v.data
          | none => ucMarker ++ k.data ++ [rbrace]) ++ substUC m rest := by
  have hshape : ucMarker ++ k.data ++ rbrace :: rest
      = '$' :: ("\x7buser_config.".data ++ (k.data ++ rbrace :: rest)) := by
    rw [ucMarker_eq]
    simp [List.append_assoc]
  have hpre : ucMarker.isPrefixOf
      ('$' :: ("\x7buser_config.".data ++ (k.data ++ rbrace :: rest))) = true := by
    have : ('$' : Char) :: ("\x7buser_config.".data ++ (k.data ++ rbrace :: rest))
        = ucMarker ++ (k.data ++ rbrace :: rest) := by
      rw [ucMarker_eq]; simp
    rw [this]
    exact List.isPrefixOf_iff_prefix.mpr (List.prefix_append _ _)
  have hdrop1 : ("\x7buser_config.".data ++ (k.data ++ rbrace :: rest)).drop
      (ucMarker.length - 1) = k.data ++ rbrace :: rest :=
    List.drop_left' rfl
  have hdrop2 : (k.data ++ rbrace :: rest).drop (k.data.length + 1) = rest := by
    rw [List.append_cons]
    exact List.drop_left' (by simp)
  have htake : takeKey ((k.data ++ rbrace :: rest)) = some k.data :=
    takeKey_append hk1 hk2
  rw [hshape, substUC]
  simp only [hpre, if_true, hdrop1, htake]
  rw [hdrop2]

/-- Scanning distributes over a dollar-free left part. -/
theorem substUC_append_of_no_dollar {m : List (String × String)} {a t : List Char}
    (h : '$' ∉ a) : substUC m (a ++ t) = a ++ substUC m t := by
  induction a with
  | nil => simp
  | cons x a' ih =>
    have hx : x ≠ '$' := fun he => h (he ▸ List.mem_cons_self x a')
    have ha' : '$' ∉ a' := fun hm => h (List.mem_cons_of_mem x hm)
    rw [List.cons_append, substUC_cons_of_not_marker (ucMarker_head_ne hx), ih ha']
    rfl

/-- Scanning a placeholder-free list is the identity. -/
theorem substUC_id_of_no_placeholder {m : List (String × String)} {l : List Char}
    (h : hasPlaceholder l = false) : substUC m l = l := by
  induction l with
  | nil => rw [substUC]
  | cons c cs ih =>
    rw [hasPlaceholder] at h
    by_cases hp : ucMarker.isPrefixOf (c :: cs) = true
    · cases ht : takeKey (cs.drop (ucMarker.length - 1)) with
      | some k => simp [hp, ht] at h
      | none =>
        simp only [hp, ht, Option.isSome_none, Bool.and_false, if_false] at h
        rw [substUC_cons_of_no_key ht, ih h]
    · have hp' : ucMarker.isPrefixOf (c :: cs) = false := Bool.eq_false_iff.mpr hp
      simp only [hp', Bool.false_and, if_false] at h
      rw [substUC_cons_of_not_marker hp', ih h]

/-- A placeholder whose key is absent from the value map is left
verbatim. -/
theorem substituteUserConfig_miss {m : List (String × String)} {k : String}
    (hk1 : rbrace ∉ k.data) (hk2 : k.data ≠ []) (h : m.lookup k = none) :
    substituteUserConfig (ucPlaceholder k) m = ucPlaceholder k := by
  apply String.ext
  show substUC m (ucMarker ++ k.data ++ [rbrace]) = ucMarker ++ k.data ++ [rbrace]
  have hd : ucMarker ++ k.data ++ [rbrace] = ucMarker ++ k.data ++ rbrace :: [] := rfl
  rw [hd, substUC_marker k [] hk1 hk2, h]
  simp [substUC]

/-- C9: in a non-interactive context, when some declared field is
required and resolves from none of stored config, the derived ambient
variable, or a default, the run exits with status 1 carrying exactly the
three stderr lines (missing keys, the `mpak config set` alternative, and
the environment-variable alternative) and no child process is spawned. -/
theorem c9_missing_required_fatal :
    ∀ (pkg : String) (stored ambient processEnv : String → Option String)
      (fields : List (String × UserConfigField))
      (mcpEnv : Option (List (String × String))) (k : String) (f : UserConfigField),
      (k, f) ∈ fields → f.required = true →
      stored k = none → ambient (derivedEnvVar k) = none → f.default? = none →
      runConfigPhase pkg stored ambient processEnv fields mcpEnv
        = .exited 1 (missingConfigMessages pkg (gatherPure stored ambient fields).2) := by
  intro pkg stored ambient processEnv fields mcpEnv k f hmem hreq h1 h2 h3
  have hne := gatherPure_missing_nonempty hmem hreq h1 h2 h3
  unfold runConfigPhase
  rw [if_neg (by simpa [List.isEmpty_iff] using hne)]

/-- C9 witness: one required, fully unresolved key `api_key` makes the
non-interactive run exit 1 with the three report lines. -/
theorem c9_witness :
    runConfigPhase "@acme/tool" (fun _ => none) (fun _ => none) (fun _ => none)
        [("api_key", { required := true, default? := none })] none
      = .exited 1
          [ "=> Error: Missing required config: api_key",
            "=> Run " ++ (Char.ofNat 39).toString ++ "mpak config set @acme/tool "
              ++ "<key>=<value>" ++ (Char.ofNat 39).toString ++ " to set values",
            "=> Or set environment variables: MPAK_CONFIG_API_KEY" ] := by
  rw [c9_missing_required_fatal "@acme/tool" (fun _ => none) (fun _ => none) (fun _ => none)
    [("api_key", { required := true, default? := none })] none "api_key"
    { required := true, default? := none } (by simp) rfl rfl rfl rfl]
  rfl

/-- C10: a field that is not required and has no stored value, no derived
ambient value and no default is silently omitted: its key is in neither
the resolved map nor the missing list, and the canonical placeholder
referencing it is left verbatim by substitution against the gathered
map. -/
theorem c10_optional_unresolved_omitted :
    ∀ (stored ambient : String → Option String)
      (fields : List (String × UserConfigField)) (k : String) (f : UserConfigField),
      (fields.map Prod.fst).Nodup → (k, f) ∈ fields →
      f.required = false → stored k = none → ambient (derivedEnvVar k) = none →
      f.default? = none → rbrace ∉ k.data → k.data ≠ [] →
      ((gatherPure stored ambient fields).1.lookup k = none
        ∧ k ∉ (gatherPure stored ambient fields).2
        ∧ substituteUserConfig (ucPlaceholder k) (gatherPure stored ambient fields).1
            = ucPlaceholder k) := by
  intro stored ambient fields k f hnd hmem hreq h1 h2 h3 hk1 hk2
  have hres : resolveField (stored k) (ambient (derivedEnvVar k)) f = none := by
    simp [resolveField, h1, h2, h3]
  have hlook : (gatherPure stored ambient fields).1.lookup k = none := by
    rw [gatherPure_lookup hnd hmem, hres]
  refine ⟨hlook, ?_, ?_⟩
  · rw [gatherPure_missing_iff hnd hmem]
    simp [hreq]
  · exact substituteUserConfig_miss hk1 hk2 hlook

/-- C10 witness: a non-required field `opt` with no stored value, no
ambient value and no default is omitted from the resolved map, is not
reported missing, and its placeholder survives substitution verbatim. -/
theorem c10_witness :
    ((gatherPure (fun _ => none) (fun _ => none)
          [("opt", { required := false, default? := none })]).1.lookup "opt" = none
      ∧ "opt" ∉ (gatherPure (fun _ => none) (fun _ => none)
          [("opt", { required := false, default? := none })]).2
      ∧ substituteUserConfig (ucPlaceholder "opt")
            (gatherPure (fun _ => none) (fun _ => none)
              [("opt", { required := false, default? := none })]).1
          = ucPlaceholder "opt") :=
  c10_optional_unresolved_omitted (fun _ => none) (fun _ => none)
    [("opt", { required := false, default? := none })] "opt"
    { required := false, default? := none }
    (by decide) (by simp) rfl rfl rfl rfl (by decide) (by decide)

/-- C7: `substituteUserConfig` replaces a placeholder whose key is in the
map by its value, leaves a placeholder whose key is absent verbatim
(never an error), and is the identity on strings containing no
placeholder; `substituteEnvVars` applies the substitution to every value
of the environment map and never to its keys. -/
theorem c7_substitution :
    (∀ (m : List (String × String)) (k v s1 s2 : String),
        '$' ∉ s1.data → rbrace ∉ k.data → k.data ≠ [] → m.lookup k = some v →
        substituteUserConfig (s1 ++ ucPlaceholder k ++ s2) m
          = s1 ++ v ++ substituteUserConfig s2 m)
      ∧ (∀ (m : List (String × String)) (k s1 s2 : String),
          '$' ∉ s1.data → rbrace ∉ k.data → k.data ≠ [] → m.lookup k = none →
          substituteUserConfig (s1 ++ ucPlaceholder k ++ s2) m
            = s1 ++ ucPlaceholder k ++ substituteUserConfig s2 m)
      ∧ (∀ (m : List (String × String)) (s : String), hasPlaceholder s.data = false →
          substituteUserConfig s m = s)
      ∧ (∀ (m env : List (String × String)),
          (substituteEnvVars (some env) m).map Prod.fst = env.map Prod.fst
            ∧ substituteEnvVars (some env) m
                = env.map fun p => (p.1, substituteUserConfig p.2 m)) := by
  refine ⟨?_, ?_, ?_, ?_⟩
  · intro m k v s1 s2 hs hk1 hk2 hlk
    apply String.ext
    show substUC m ((s1 ++ ucPlaceholder k ++ s2)).data
      = (s1 ++ v ++ substituteUserConfig s2 m).data
    have hd : (s1 ++ ucPlaceholder k ++ s2).data
        = s1.data ++ (ucMarker ++ k.data ++ rbrace :: s2.data) := by
      simp [String.data_append, ucPlaceholder, List.append_assoc]
    rw [hd, substUC_append_of_no_dollar hs, substUC_marker k s2.data hk1 hk2, hlk]
    simp [substituteUserConfig, String.data_append, List.append_assoc]
  · intro m k s1 s2 hs hk1 hk2 hlk
    apply String.ext
    show substUC m ((s1 ++ ucPlaceholder k ++ s2)).data
      = (s1 ++ ucPlaceholder k ++ substituteUserConfig s2 m).data
    have hd : (s1 ++ ucPlaceholder k ++ s2).data
        = s1.data ++ (ucMarker ++ k.data ++ rbrace :: s2.data) := by
      simp [String.data_append, ucPlaceholder, List.append_assoc]
    rw [hd, substUC_append_of_no_dollar hs, substUC_marker k s2.data hk1 hk2, hlk]
    simp [substituteUserConfig, String.data_append, ucPlaceholder, List.append_assoc]
  · intro m s h
    exact String.ext (substUC_id_of_no_placeholder h)
  · intro m env
    constructor
    · simp [substituteEnvVars]
    · rfl

/-- C7 witness: a placeholder with a present key is replaced inside a
dollar-free context, discharging the hypotheses at concrete inputs. -/
theorem c7_witness :
    substituteUserConfig ("a: " ++ ucPlaceholder "key" ++ "!") [("key", "X")]
      = "a: " ++ "X" ++ substituteUserConfig "!" [("key", "X")] :=
  c7_substitution.1 [("key", "X")] "key" "X" "a: " "!"
    (by decide) (by decide) (by decide) (by decide)

/-- The per-package string-value loop succeeds exactly when every entry
value is a string. -/
theorem validateStringValues_ok_iff {pkg : String} {l : List (String × JsonValue)} :
    validateStringValues pkg l = .ok () ↔ l.all (fun q => isStr q.2) = true := by
  induction l with
  | nil => simp [validateStringValues]
  | cons p rest ih =>
    obtain ⟨key, value⟩ := p
    cases hv : isStr value <;> simp [validateStringValues, hv, ih]

/-- The packages loop succeeds exactly when every per-package entry
passes the object-of-strings checks. -/
theorem validatePackagesEntries_ok_iff {l : List (String × JsonValue)} :
    validatePackagesEntries l = .ok () ↔ l.all pkgEntryOk = true := by
  induction l with
  | nil => simp [validatePackagesEntries]
  | cons p rest ih =>
    obtain ⟨pkgName, pkgConfig⟩ := p
    cases ho : isObjLike pkgConfig with
    | false => simp [validatePackagesEntries, ho, pkgEntryOk]
    | true =>
      cases hv : validateStringValues pkgName (jsEntries pkgConfig) with
      | ok u =>
        obtain ⟨⟩ := u
        have hall := validateStringValues_ok_iff.mp hv
        simp [validatePackagesEntries, ho, hv, pkgEntryOk, hall, ih]
      | error e =>
        have hnall : ¬ ((jsEntries pkgConfig).all (fun q => isStr q.2) = true) := by
          intro hall
          rw [validateStringValues_ok_iff.mpr hall] at hv
          cases hv
        simp [validatePackagesEntries, ho, hv, pkgEntryOk, hnall]

/-- The unknown-field scan finds nothing exactly when all keys are
known. -/
theorem findUnknownField_none_iff {l : List String} :
    findUnknownField l = none ↔ l.all (fun k => knownFields.contains k) = true := by
  induction l with
  | nil => simp [findUnknownField]
  | cons k rest ih =>
    rw [findUnknownField]
    by_cases hk : knownFields.contains k = true
    · rw [if_pos hk]
      simp only [List.all_cons, hk, Bool.true_and, ih]
    · rw [if_neg hk]
      have hk' : knownFields.contains k = false := Bool.eq_false_iff.mpr hk
      constructor
      · intro he
        cases he
      · intro hall
        rw [List.all_cons, hk'] at hall
        simp at hall

/-- The tail of the validator succeeds exactly when all top-level keys
are known. -/
theorem validateConfigKnownPart_ok_iff {d : JsonValue} :
    validateConfigKnownPart d = .ok ()
      ↔ (jsKeys d).all (fun k => knownFields.contains k) = true := by
  unfold validateConfigKnownPart
  cases hf : findUnknownField (jsKeys d) with
  | none => simpa using findUnknownField_none_iff.mp hf
  | some k =>
    have hnall : ¬ ((jsKeys d).all (fun k => knownFields.contains k) = true) := by
      intro hall
      rw [findUnknownField_none_iff.mpr hall] at hf
      cases hf
    constructor
    · intro he
      cases he
    · intro hall
      exact absurd hall hnall

/-- The packages-and-unknown-fields part succeeds exactly when both
checks pass. -/
theorem validateConfigPackagesPart_ok_iff {d : JsonValue} :
    validateConfigPackagesPart d = .ok ()
      ↔ ((match jsGetField d "packages" with
          | none => true
          | some p => isObjLike p && (jsEntries p).all pkgEntryOk) = true
        ∧ (jsKeys d).all (fun k => knownFields.contains k) = true) := by
  unfold validateConfigPackagesPart
  cases hp : jsGetField d "packages" with
  | none => simpa using validateConfigKnownPart_ok_iff
  | some p =>
    cases ho : isObjLike p with
    | false => simp [ho]
    | true =>
      cases hv : validatePackagesEntries (jsEntries p) with
      | ok u =>
        obtain ⟨⟩ := u
        have hall := validatePackagesEntries_ok_iff.mp hv
        simp [ho, hv, hall, validateConfigKnownPart_ok_iff]
      | error e =>
        have hnall : ¬ ((jsEntries p).all pkgEntryOk = true) := by
          intro hall
          rw [validatePackagesEntries_ok_iff.mpr hall] at hv
          cases hv
        simp [ho, hv, hnall]

/-- `validateConfig` succeeds exactly on the contents characterised by
`looseConform`. -/
theorem validateConfig_ok_iff {d : JsonValue} :
    validateConfig d = .ok () ↔ looseConform d = true := by
  unfold validateConfig looseConform
  cases h1 : isObjLike d with
  | false => simp [h1]
  | true =>
    cases h2 : isSomeStr (jsGetField d "version") with
    | false => simp [h1, h2]
    | true =>
      cases h3 : isSomeStr (jsGetField d "lastUpdated") with
      | false => simp [h1, h2, h3]
      | true =>
        cases h4 : jsGetField d "registryUrl" with
        | none =>
          simpa [h1, h2, h3, h4, Bool.and_assoc] using validateConfigPackagesPart_ok_iff
        | some v =>
          cases h5 : isStr v with
          | false => simp [h1, h2, h3, h4, h5]
          | true =>
            simpa [h1, h2, h3, h4, h5, Bool.and_assoc]
              using validateConfigPackagesPart_ok_iff

/-- A nonempty string stays nonempty under right-concatenation. -/
theorem append_ne_empty_of_left {s t : String} (h : s ≠ "") : s ++ t ≠ "" := by
  intro he
  apply h
  apply String.ext
  have : (s ++ t).data = [] := by rw [he]
  rw [String.data_append] at this
  exact (List.append_eq_nil.mp this).1

/-- Errors raised by the string-value loop carry a nonempty message. -/
theorem validateStringValues_error_ne {pkg : String} {l : List (String × JsonValue)}
    {msg : String} (h : validateStringValues pkg l = .error msg) : msg ≠ "" := by
  induction l with
  | nil => cases h
  | cons p rest ih =>
    obtain ⟨key, value⟩ := p
    rw [validateStringValues] at h
    cases hv : isStr value with
    | true =>
      rw [if_pos hv] at h
      exact ih h
    | false =>
      rw [if_neg (by simp [hv])] at h
      cases h
      have hbase : ("Config packages." : String) ≠ "" := by decide
      exact append_ne_empty_of_left
        (append_ne_empty_of_left (append_ne_empty_of_left (append_ne_empty_of_left hbase)))

/-- Errors raised by the packages loop carry a nonempty message. -/
theorem validatePackagesEntries_error_ne {l : List (String × JsonValue)} {msg : String}
    (h : validatePackagesEntries l = .error msg) : msg ≠ "" := by
  induction l with
  | nil => cases h
  | cons p rest ih =>
    obtain ⟨pkgName, pkgConfig⟩ := p
    rw [validatePackagesEntries] at h
    cases ho : isObjLike pkgConfig with
    | false =>
      rw [if_neg (by simp [ho])] at h
      cases h
      have hbase : ("Config packages." : String) ≠ "" := by decide
      exact append_ne_empty_of_left (append_ne_empty_of_left hbase)
    | true =>
      rw [if_pos ho] at h
      cases hv : validateStringValues pkgName (jsEntries pkgConfig) with
      | ok u =>
        obtain ⟨⟩ := u
        rw [hv] at h
        exact ih h
      | error e =>
        rw [hv] at h
        cases h
        exact validateStringValues_error_ne hv

/-- Every error `validateConfig` raises carries a nonempty message. -/
theorem validateConfig_error_ne {d : JsonValue} {msg : String}
    (h : validateConfig d = .error msg) : msg ≠ "" := by
  have hknown : ∀ m : String, validateConfigKnownPart d = .error m → m ≠ "" := by
    intro m hm
    unfold validateConfigKnownPart at hm
    cases hf : findUnknownField (jsKeys d) with
    | none => rw [hf] at hm; cases hm
    | some k =>
      rw [hf] at hm
      dsimp only at hm
      cases hm
      have hbase : ("Config contains unknown field: " : String) ≠ "" := by decide
      exact append_ne_empty_of_left hbase
  have hpkg : ∀ m : String, validateConfigPackagesPart d = .error m → m ≠ "" := by
    intro m hm
    unfold validateConfigPackagesPart at hm
    cases hp : jsGetField d "packages" with
    | none =>
      rw [hp] at hm
      exact hknown m hm
    | some p =>
      rw [hp] at hm
      dsimp only at hm
      cases ho : isObjLike p with
      | false =>
        rw [if_neg (by simp [ho])] at hm
        cases hm
        decide
      | true =>
        rw [if_pos ho] at hm
        cases hv : validatePackagesEntries (jsEntries p) with
        | ok u =>
          obtain ⟨⟩ := u
          rw [hv] at hm
          exact hknown m hm
        | error e =>
          rw [hv] at hm
          cases hm
          exact validatePackagesEntries_error_ne hv
  unfold validateConfig at h
  cases h1 : isObjLike d with
  | false =>
    rw [if_pos (by simp [h1])] at h
    cases h
    decide
  | true =>
    rw [if_neg (by simp [h1])] at h
    cases h2 : isSomeStr (jsGetField d "version") with
    | false =>
      rw [if_pos (by simp [h2])] at h
      cases h
      decide
    | true =>
      rw [if_neg (by simp [h2])] at h
      cases h3 : isSomeStr (jsGetField d "lastUpdated") with
      | false =>
        rw [if_pos (by simp [h3])] at h
        cases h
        decide
      | true =>
        rw [if_neg (by simp [h3])] at h
        cases h4 : jsGetField d "registryUrl" with
        | none =>
          rw [h4] at h
          exact hpkg msg h
        | some v =>
          rw [h4] at h
          dsimp only at h
          cases h5 : isStr v with
          | false =>
            rw [if_pos (by simp [h5])] at h
            cases h
            decide
          | true =>
            rw [if_neg (by simp [h5])] at h
            exact hpkg msg h

/-- C8 amended: loading fails with a descriptive (nonempty) error for
invalid JSON and for every parsed value outside `looseConform` — the
claim's condition, except that JavaScript `typeof` treats arrays as
objects, so an array value for `packages` (or for a per-package entry)
whose entry values pass the string checks is accepted. -/
theorem c8_amended_load_rejects_nonconforming :
    ∀ parsed : Option JsonValue,
      (∀ d, parsed = some d → looseConform d = false) →
      ∃ msg, loadConfigParsed parsed = .error msg ∧ msg ≠ "" := by
  intro parsed hbad
  cases parsed with
  | none => exact ⟨"Config file contains invalid JSON", rfl, by decide⟩
  | some d =>
    have hd : looseConform d = false := hbad d rfl
    cases hv : validateConfig d with
    | ok u =>
      obtain ⟨⟩ := u
      rw [validateConfig_ok_iff.mp hv] at hd
      cases hd
    | error e =>
      refine ⟨e, ?_, validateConfig_error_ne hv⟩
      simp [loadConfigParsed, hv]

/-- C8 witness: a config file containing the JSON string `"oops"` is
rejected with a nonempty error. -/
theorem c8_witness :
    ∃ msg, loadConfigParsed (some (JsonValue.str "oops")) = .error msg ∧ msg ≠ "" :=
  c8_amended_load_rejects_nonconforming (some (JsonValue.str "oops"))
    (by intro d hd; cases hd; rfl)

/-- C8 counterexample: `badPackagesConfig` sets `packages` to a JSON
array — not "a map of string-to-string maps", so not of the correct type
per the claim — yet `validateConfig` accepts it and loading succeeds
instead of failing. -/
theorem c8_counterexample_array_packages :
    strictConform badPackagesConfig = false
      ∧ validateConfig badPackagesConfig = .ok ()
      ∧ loadConfigParsed (some badPackagesConfig) = .ok badPackagesConfig := by
  exact ⟨rfl, rfl, rfl⟩

end Mpak
